import Mathlib

/-!
Verification of the graphics-catalog application (`streamlit_app.py`).

The Python source is shallowly embedded: pure helpers become Lean functions,
the Google-Drive API becomes an explicit `Drive` state with error-free
operation semantics, Python floats become `ℚ`, byte strings become `String`,
and Python exceptions become `Except`/`Option` results.  Library calls that
are external to the repository (`json.loads`, `json.dumps`, `hashlib.md5`)
are abstracted as function parameters of the embedded operations.
-/

/-! ### Python string primitives

Python compares strings lexicographically by code point and looks up
substrings with `in`; both are modelled structurally on the character list
so that they evaluate inside the kernel. -/

/-- Lexicographic less-or-equal on character lists, by code point
(Python string `<=`). -/
def charListLe : List Char → List Char → Bool
  | [], _ => true
  | _ :: _, [] => false
  | a :: as, b :: bs => if a < b then true else if b < a then false else charListLe as bs

/-- Python string `<=` on the underlying character data. -/
def strLe (a b : String) : Bool := charListLe a.data b.data

/-- The pattern is an initial segment of the text (character lists). -/
def leadsList : List Char → List Char → Bool
  | [], _ => true
  | _ :: _, [] => false
  | p :: ps, c :: cs => p = c && leadsList ps cs

/-- The pattern occurs contiguously somewhere in the text
(Python `pat in s`). -/
def occursIn (pat : List Char) : List Char → Bool
  | [] => leadsList pat []
  | c :: cs => leadsList pat (c :: cs) || occursIn pat cs

/-- Character data of a string, lower-cased (Python `str.lower`). -/
def lowerData (s : String) : List Char := s.data.map Char.toLower

/-! ### Data model

`GraphicRecord` is the JSON record built by `process_uploaded_image` and
`uploader_page`; `Catalog` is the persisted document
`{"graphics": [...]}`. -/

/-- Business metadata entered in `uploader_page`; CTR and ROAS are Python
floats, modelled as rationals. -/
structure Business where
  numer_akcji : String
  rynek : String
  typ_odbiorcy : String
  typ_kampanii : String
  ctr : ℚ
  roas : ℚ
deriving DecidableEq

/-- Technical metadata computed by `process_uploaded_image`. -/
structure Technical where
  format : String
  dimensions : ℕ × ℕ
  ratio : String
  file_size : ℕ
  color_palette : List String
deriving DecidableEq

/-- One catalog entry, as assembled by `process_uploaded_image` plus the
`business` block added in `uploader_page`. -/
structure GraphicRecord where
  id : String
  filename : String
  drive_file_id : ℕ
  stored_filename : String
  upload_date : String
  technical : Technical
  business : Business
deriving DecidableEq

/-- The persisted document `{"graphics": [...]}`. -/
structure Catalog where
  graphics : List GraphicRecord
deriving DecidableEq

/-- Placeholder business block of a freshly processed image, before
`uploader_page` fills it in. -/
def emptyBusiness : Business :=
  { numer_akcji := "", rynek := "", typ_odbiorcy := "", typ_kampanii := "",
    ctr := 0, roas := 0 }

/-! ### Aspect-ratio classifier (`calculate_ratio`, lines 185-208) -/

/-- The fixed `standard_ratios` table, in Python dict insertion order;
the float literals of the source become exact decimal rationals. -/
def standard_ratios : List (String × ℚ) :=
  [("1:1", 1), ("5:4", 125/100), ("4:3", 1333/1000), ("3:2", 15/10),
   ("16:10", 16/10), ("16:9", 1778/1000), ("2:1", 2), ("4:5", 8/10),
   ("3:4", 75/100), ("2:3", 667/1000), ("10:16", 625/1000),
   ("9:16", 5625/10000), ("1:2", 5/10)]

/-- Python `min` with a key function over a nonempty sequence `best :: l`:
the running best is replaced only when the new key is strictly smaller, so
the first minimizer wins. -/
def pymin {α : Type} (k : α → ℚ) : α → List α → α
  | best, [] => best
  | best, x :: xs => pymin k (if k x < k best then x else best) xs

/-- `calculate_ratio` (lines 185-208).  `none` models the Python
`ZeroDivisionError` raised by `width / height` when `height` is `0`;
otherwise the label of the first table entry at minimal absolute
difference from the actual ratio is returned. -/
def calculate_ratio (width height : ℕ) : Option String :=
  if height = 0 then none
  else
    match standard_ratios with
    | [] => none
    | e :: es => some (pymin (fun p => |p.2 - (width : ℚ) / (height : ℚ)|) e es).1

/-- Python `min` over `best :: l` returns the first element whose key is
minimal: the sequence splits as `pre ++ result :: post` with every element
of `pre` strictly farther and every element of `post` no closer. -/
theorem pymin_first_min {α : Type} (k : α → ℚ) :
    ∀ (l : List α) (best : α),
      ∃ pre post, best :: l = pre ++ pymin k best l :: post ∧
        (∀ x ∈ pre, k (pymin k best l) < k x) ∧
        (∀ x ∈ post, k (pymin k best l) ≤ k x) := by
  intro l
  induction l with
  | nil =>
    intro best
    exact ⟨[], [], rfl, by simp, by simp⟩
  | cons x xs ih =>
    intro best
    by_cases hx : k x < k best
    · have hred : pymin k best (x :: xs) = pymin k x xs := by
        simp [pymin, hx]
      obtain ⟨pre, post, hdec, hpre, hpost⟩ := ih x
      have hresx : k (pymin k x xs) ≤ k x := by
        have hx' : x ∈ pre ++ pymin k x xs :: post := by
          rw [← hdec]; exact List.mem_cons_self _ _
        rcases List.mem_append.1 hx' with h | h
        · exact le_of_lt (hpre x h)
        · rcases List.mem_cons.1 h with h | h
          · exact le_of_eq (congrArg k h).symm
          · exact hpost x h
      refine ⟨best :: pre, post, ?_, ?_, ?_⟩
      · rw [hred, List.cons_append, ← hdec]
      · intro y hy
        rcases List.mem_cons.1 hy with rfl | hy
        · rw [hred]; exact lt_of_le_of_lt hresx hx
        · rw [hred]; exact hpre y hy
      · intro y hy
        rw [hred]; exact hpost y hy
    · have hred : pymin k best (x :: xs) = pymin k best xs := by
        simp [pymin, hx]
      obtain ⟨pre, post, hdec, hpre, hpost⟩ := ih best
      cases pre with
      | nil =>
        simp only [List.nil_append] at hdec
        injection hdec with h1 h2
        refine ⟨[], x :: post, ?_, by simp, ?_⟩
        · rw [hred, ← h1, h2]; rfl
        · intro y hy
          rcases List.mem_cons.1 hy with rfl | hy
          · rw [hred, ← h1]; exact le_of_not_lt hx
          · rw [hred]; exact hpost y hy
      | cons p pre' =>
        rw [List.cons_append] at hdec
        injection hdec with h1 h2
        have hbestlt : k (pymin k best xs) < k best := by
          have := hpre p (List.mem_cons_self _ _)
          rwa [← h1] at this
        refine ⟨best :: x :: pre', post, ?_, ?_, ?_⟩
        · rw [hred, List.cons_append, List.cons_append, ← h2]
        · intro y hy
          rcases List.mem_cons.1 hy with rfl | hy
          · rw [hred]; exact hbestlt
          · rcases List.mem_cons.1 hy with rfl | hy
            · rw [hred]; exact lt_of_lt_of_le hbestlt (le_of_not_lt hx)
            · rw [hred]; exact hpre y (List.mem_cons_of_mem _ hy)
        · intro y hy
          rw [hred]; exact hpost y hy

/-- For a nonzero height the classifier always produces the label of the
first minimizer; shared helper unfolding the guard of `calculate_ratio`. -/
theorem calculate_ratio_of_ne_zero (width height : ℕ) (hh : height ≠ 0) :
    calculate_ratio width height =
      some (pymin (fun p => |p.2 - (width : ℚ) / (height : ℚ)|)
        ("1:1", 1) standard_ratios.tail).1 := by
  simp [calculate_ratio, hh, standard_ratios]

/-- C1: for every width and height with height > 0, `calculate_ratio`
returns exactly one label from its fixed 13-entry table, namely the label
of the entry whose value is at minimum absolute difference from
width/height; at equal difference the entry earlier in table iteration
order wins (every earlier entry is strictly farther). -/
theorem calculate_ratio_first_nearest (width height : ℕ) (hh : 0 < height) :
    standard_ratios.length = 13 ∧
    ∃ pre e post,
      standard_ratios = pre ++ e :: post ∧
      calculate_ratio width height = some e.1 ∧
      (∀ x ∈ standard_ratios,
        |e.2 - (width : ℚ) / (height : ℚ)| ≤ |x.2 - (width : ℚ) / (height : ℚ)|) ∧
      (∀ x ∈ pre,
        |e.2 - (width : ℚ) / (height : ℚ)| < |x.2 - (width : ℚ) / (height : ℚ)|) := by
  refine ⟨rfl, ?_⟩
  obtain ⟨pre, post, hdec, hpre, hpost⟩ :=
    pymin_first_min (fun p => |p.2 - (width : ℚ) / (height : ℚ)|)
      standard_ratios.tail ("1:1", 1)
  have htab : standard_ratios = ("1:1", (1 : ℚ)) :: standard_ratios.tail := rfl
  refine ⟨pre, _, post, htab.trans hdec, calculate_ratio_of_ne_zero width height hh.ne',
    ?_, hpre⟩
  intro x hx
  rw [htab.trans hdec] at hx
  rcases List.mem_append.1 hx with h | h
  · exact le_of_lt (hpre x h)
  · rcases List.mem_cons.1 h with h | h
    · exact le_of_eq (by rw [h])
    · exact hpost x h

/-- Witness for C1 at width 16, height 9. -/
theorem calculate_ratio_first_nearest_witness :
    0 < 9 ∧
    (standard_ratios.length = 13 ∧
     ∃ pre e post,
       standard_ratios = pre ++ e :: post ∧
       calculate_ratio 16 9 = some e.1 ∧
       (∀ x ∈ standard_ratios,
         |e.2 - (16 : ℚ) / (9 : ℚ)| ≤ |x.2 - (16 : ℚ) / (9 : ℚ)|) ∧
       (∀ x ∈ pre,
         |e.2 - (16 : ℚ) / (9 : ℚ)| < |x.2 - (16 : ℚ) / (9 : ℚ)|)) := by
  refine ⟨by norm_num, ?_⟩
  have := calculate_ratio_first_nearest 16 9 (by norm_num)
  simpa using this

/-- C8: `calculate_ratio` has no error condition at nonzero height (it
always returns a label), but the division width/height is unguarded: at
height 0 the division-by-zero branch is reached for every width and the
function fails instead of returning a label. -/
theorem calculate_ratio_zero_height_unguarded :
    (∀ width : ℕ, calculate_ratio width 0 = none) ∧
    (∀ width height : ℕ, height ≠ 0 → ∃ label, calculate_ratio width height = some label) := by
  constructor
  · intro w
    simp [calculate_ratio]
  · intro w h hh
    exact ⟨_, calculate_ratio_of_ne_zero w h hh⟩

/-- Witness for C8: at height 0 the classifier fails for width 7, while at
16x9 it returns a label. -/
theorem calculate_ratio_zero_height_unguarded_witness :
    calculate_ratio 7 0 = none ∧
    ((9 : ℕ) ≠ 0 ∧ ∃ label, calculate_ratio 16 9 = some label) :=
  ⟨calculate_ratio_zero_height_unguarded.1 7, by decide,
   calculate_ratio_zero_height_unguarded.2 16 9 (by decide)⟩

/-! ### Retry wrapper (`retry_api_call`, lines 28-43) -/

/-- One attempt of the wrapped call either returns a value or raises an
error with the given message. -/
inductive CallOutcome (α : Type) where
  | ok (v : α)
  | err (msg : String)
deriving DecidableEq

/-- The transient-failure test of line 38: some keyword of
`['ssl', 'timeout', 'connection', 'network']` occurs in the lower-cased
error text. -/
def transient_error (msg : String) : Bool :=
  ["ssl", "timeout", "connection", "network"].any
    (fun kw => occursIn kw.data (lowerData msg))

/-- The `for attempt in range(max_retries)` loop of `retry_api_call`: on
the last attempt any error is re-raised; earlier, a transient error sleeps
`delay * (attempt + 1)` and continues while any other error is re-raised.
The recorded list is the chronological sequence of sleep durations.  (An
empty attempt list cannot be reached from `retry_api_call` with a positive
`max_retries`; the placeholder error models Python falling off the loop.) -/
def retryLoop {α : Type} (f : ℕ → CallOutcome α) (max_retries delay : ℕ) :
    List ℕ → Except String α × List ℕ
  | [] => (Except.error "loop exhausted", [])
  | attempt :: rest =>
    match f attempt with
    | CallOutcome.ok v => (Except.ok v, [])
    | CallOutcome.err e =>
      if attempt = max_retries - 1 then (Except.error e, [])
      else if transient_error e then
        let p := retryLoop f max_retries delay rest
        (p.1, delay * (attempt + 1) :: p.2)
      else (Except.error e, [])

/-- `retry_api_call` (lines 28-43): run the attempts in order, with the
attempt outcomes given by `f`. -/
def retry_api_call {α : Type} (f : ℕ → CallOutcome α) (max_retries delay : ℕ) :
    Except String α × List ℕ :=
  retryLoop f max_retries delay (List.range max_retries)

/-- C4: with the fixed maximum of 3 attempts, `retry_api_call` re-attempts
only after a transient error, sleeping `delay * attempt-number` between
attempts (linear backoff); a non-transient error is re-raised immediately
with no further attempt, and after the third attempt any error is
re-raised.  The six cases cover every possible outcome sequence. -/
theorem retry_api_call_behavior {α : Type} (f : ℕ → CallOutcome α) (delay : ℕ) :
    (∀ v, f 0 = CallOutcome.ok v →
        retry_api_call f 3 delay = (Except.ok v, [])) ∧
    (∀ e, f 0 = CallOutcome.err e → transient_error e = false →
        retry_api_call f 3 delay = (Except.error e, [])) ∧
    (∀ e v, f 0 = CallOutcome.err e → transient_error e = true →
        f 1 = CallOutcome.ok v →
        retry_api_call f 3 delay = (Except.ok v, [delay * 1])) ∧
    (∀ e e', f 0 = CallOutcome.err e → transient_error e = true →
        f 1 = CallOutcome.err e' → transient_error e' = false →
        retry_api_call f 3 delay = (Except.error e', [delay * 1])) ∧
    (∀ e e' v, f 0 = CallOutcome.err e → transient_error e = true →
        f 1 = CallOutcome.err e' → transient_error e' = true →
        f 2 = CallOutcome.ok v →
        retry_api_call f 3 delay = (Except.ok v, [delay * 1, delay * 2])) ∧
    (∀ e e' e'', f 0 = CallOutcome.err e → transient_error e = true →
        f 1 = CallOutcome.err e' → transient_error e' = true →
        f 2 = CallOutcome.err e'' →
        retry_api_call f 3 delay = (Except.error e'', [delay * 1, delay * 2])) := by
  have hr : List.range 3 = [0, 1, 2] := rfl
  refine ⟨?_, ?_, ?_, ?_, ?_, ?_⟩
  · intro v h0
    simp [retry_api_call, hr, retryLoop, h0]
  · intro e h0 ht
    simp [retry_api_call, hr, retryLoop, h0, ht]
  · intro e v h0 ht h1
    simp [retry_api_call, hr, retryLoop, h0, ht, h1]
  · intro e e' h0 ht h1 ht'
    simp [retry_api_call, hr, retryLoop, h0, ht, h1, ht']
  · intro e e' v h0 ht h1 ht' h2
    simp [retry_api_call, hr, retryLoop, h0, ht, h1, ht', h2]
  · intro e e' e'' h0 ht h1 ht' h2
    simp [retry_api_call, hr, retryLoop, h0, ht, h1, ht', h2]

/-- Attempt outcomes for the C4 witness: a transient SSL failure followed
by a non-transient permission failure. -/
def retryWitnessCalls : ℕ → CallOutcome ℕ :=
  fun n => if n = 0 then CallOutcome.err "SSL error" else CallOutcome.err "Permission denied"

/-- Witness for C4: after one transient failure and one sleep of
`delay * 1`, the non-transient error of attempt 2 is re-raised at once. -/
theorem retry_api_call_behavior_witness :
    retryWitnessCalls 0 = CallOutcome.err "SSL error" ∧
    transient_error "SSL error" = true ∧
    retryWitnessCalls 1 = CallOutcome.err "Permission denied" ∧
    transient_error "Permission denied" = false ∧
    retry_api_call retryWitnessCalls 3 5 = (Except.error "Permission denied", [5 * 1]) :=
  ⟨rfl, by decide, rfl, by decide,
   (retry_api_call_behavior retryWitnessCalls 5).2.2.2.1 "SSL error" "Permission denied"
     rfl (by decide) rfl (by decide)⟩

/-! ### Google Drive state model

The Drive API is modelled as an explicit store of files; the operations
below give the error-free semantics of the wrappers of lines 87-183 (no
network failure), with file contents as strings and fresh ids drawn from a
counter.  `json.loads` and `json.dumps` are external library calls and are
passed in as `parse`/`encode` parameters. -/

/-- One stored Drive object: a blob, the JSON document, or a folder. -/
structure DFile where
  fid : ℕ
  name : String
  parent : ℕ
  content : String
  isFolder : Bool
deriving DecidableEq

/-- The Drive store: the files in API listing order plus a fresh-id
counter. -/
structure Drive where
  files : List DFile
  nextId : ℕ
deriving DecidableEq

/-- `find_file_in_folder` (lines 133-138): first file with the given name
under the given parent, by listing order. -/
def find_file_in_folder (s : Drive) (folderId : ℕ) (filename : String) : Option ℕ :=
  (s.files.find? (fun f => f.name == filename && f.parent == folderId)).map (fun f => f.fid)

/-- `download_file_from_drive` (lines 118-131): content of the file with
the given id, if any. -/
def download_file_from_drive (s : Drive) (fid : ℕ) : Option String :=
  (s.files.find? (fun f => f.fid == fid)).map (fun f => f.content)

/-- `upload_file_to_drive` (lines 104-116): create a new file under the
given parent and return the new store with the fresh id. -/
def upload_file_to_drive (s : Drive) (content filename : String) (parent : ℕ) :
    Drive × ℕ :=
  ({ files := s.files ++ [⟨s.nextId, filename, parent, content, false⟩],
     nextId := s.nextId + 1 }, s.nextId)

/-- `find_or_create_folder` (lines 87-102): id of the folder with the
given name under the parent, creating it when absent. -/
def find_or_create_folder (s : Drive) (parent : ℕ) (name : String) : Drive × ℕ :=
  match s.files.find? (fun f => f.name == name && f.parent == parent && f.isFolder) with
  | some f => (s, f.fid)
  | none =>
    ({ files := s.files ++ [⟨s.nextId, name, parent, "", true⟩],
       nextId := s.nextId + 1 }, s.nextId)

/-- `service.files().update` as used on line 157: replace the content of
the file with the given id. -/
def update_file (s : Drive) (fid : ℕ) (content : String) : Drive :=
  { s with files := s.files.map (fun f => if f.fid = fid then { f with content := content } else f) }

/-- Lines 143-151 of `save_json_to_drive`: when the canonical file exists
and its downloaded content is truthy (non-empty), upload that content as
`graphics_data_backup_<timestamp>.json` into the `backups` subfolder;
otherwise leave the store unchanged. -/
def backup_phase (s : Drive) (folderId : ℕ) (timestamp filename : String) : Drive :=
  match find_file_in_folder s folderId filename with
  | none => s
  | some fid =>
    match download_file_from_drive s fid with
    | none => s
    | some c =>
      if c = "" then s
      else
        let p := find_or_create_folder s folderId "backups"
        (upload_file_to_drive p.1 c ("graphics_data_backup_" ++ timestamp ++ ".json") p.2).1

/-- `save_json_to_drive` (lines 140-168): back up the prior content when
truthy, then overwrite the canonical file (or create it when absent) with
the encoded data. -/
def save_json_to_drive (encode : Catalog → String) (s : Drive) (data : Catalog)
    (folderId : ℕ) (timestamp filename : String) : Drive :=
  let s1 := backup_phase s folderId timestamp filename
  match find_file_in_folder s folderId filename with
  | some fid => update_file s1 fid (encode data)
  | none => (upload_file_to_drive s1 (encode data) filename folderId).1

/-- `load_json_from_drive` (lines 170-183): a missing canonical file, a
falsy download, or a parse failure all yield the empty catalog; a parsed
document is returned as-is. -/
def load_json_from_drive (parse : String → Except String Catalog) (s : Drive)
    (folderId : ℕ) (filename : String) : Catalog :=
  match find_file_in_folder s folderId filename with
  | none => { graphics := [] }
  | some fid =>
    match download_file_from_drive s fid with
    | none => { graphics := [] }
    | some content =>
      if content = "" then { graphics := [] }
      else
        match parse content with
        | Except.ok cat => cat
        | Except.error _ => { graphics := [] }

/-- Appending files whose names all differ from the searched name does not
change `find_file_in_folder`. -/
theorem find_file_append_of_names (s : Drive) (ext : List DFile) (n : ℕ)
    (folderId : ℕ) (filename : String) (h : ∀ f ∈ ext, f.name ≠ filename) :
    find_file_in_folder ⟨s.files ++ ext, n⟩ folderId filename =
      find_file_in_folder s folderId filename := by
  unfold find_file_in_folder
  rw [List.find?_append]
  have hnone : ext.find? (fun f => f.name == filename && f.parent == folderId) = none := by
    rw [List.find?_eq_none]
    intro f hf
    simp [h f hf]
  rw [hnone]
  cases s.files.find? (fun f => f.name == filename && f.parent == folderId) <;> rfl

/-- Appending files does not change the result of a successful download. -/
theorem download_append (s : Drive) (ext : List DFile) (n : ℕ) (fid : ℕ) (c : String)
    (h : download_file_from_drive s fid = some c) :
    download_file_from_drive ⟨s.files ++ ext, n⟩ fid = some c := by
  unfold download_file_from_drive at *
  rw [List.find?_append]
  cases hf : s.files.find? (fun f => f.fid == fid) with
  | none => rw [hf] at h; simp at h
  | some f => rw [hf] at h; simpa using h

/-- A file id found by `find_file_in_folder` can be downloaded. -/
theorem download_isSome_of_find (s : Drive) (folderId : ℕ) (filename : String) (fid : ℕ)
    (h : find_file_in_folder s folderId filename = some fid) :
    ∃ c, download_file_from_drive s fid = some c := by
  unfold find_file_in_folder at h
  cases hf : s.files.find? (fun f => f.name == filename && f.parent == folderId) with
  | none => rw [hf] at h; simp at h
  | some f =>
    rw [hf] at h
    simp only [Option.map_some'] at h
    have hfid : f.fid = fid := Option.some.inj h
    have hmem : f ∈ s.files := List.mem_of_find?_eq_some hf
    have hsome : (s.files.find? (fun g => g.fid == fid)).isSome := by
      rw [List.find?_isSome]
      exact ⟨f, hmem, by simp [hfid]⟩
    obtain ⟨g, hg⟩ := Option.isSome_iff_exists.mp hsome
    exact ⟨g.content, by simp [download_file_from_drive, hg]⟩

/-- Appending files whose names all differ from the canonical name does not
change `load_json_from_drive`. -/
theorem load_append_of_names (parse : String → Except String Catalog) (s : Drive)
    (ext : List DFile) (n : ℕ) (folderId : ℕ) (filename : String)
    (h : ∀ f ∈ ext, f.name ≠ filename) :
    load_json_from_drive parse ⟨s.files ++ ext, n⟩ folderId filename =
      load_json_from_drive parse s folderId filename := by
  unfold load_json_from_drive
  rw [find_file_append_of_names s ext n folderId filename h]
  cases hf : find_file_in_folder s folderId filename with
  | none => rfl
  | some fid =>
    dsimp only
    obtain ⟨c, hc⟩ := download_isSome_of_find s folderId filename fid hf
    rw [download_append s ext n fid c hc, hc]

/-- Mapping the content-replacement of `update_file` over a file list
commutes with looking up the id. -/
theorem find?_update_list (l : List DFile) (fid : ℕ) (v : String) :
    (l.map (fun f => if f.fid = fid then { f with content := v } else f)).find?
        (fun f => f.fid == fid)
      = (l.find? (fun f => f.fid == fid)).map
          (fun f => { f with content := v }) := by
  induction l with
  | nil => rfl
  | cons a l ih =>
    by_cases ha : a.fid = fid
    · simp [List.find?_cons, ha]
    · simp [List.find?_cons, ha, ih]

/-- `update_file` replaces the content seen by a subsequent download of an
existing id. -/
theorem download_update_file (s : Drive) (fid : ℕ) (v : String)
    (h : ∃ c, download_file_from_drive s fid = some c) :
    download_file_from_drive (update_file s fid v) fid = some v := by
  obtain ⟨c, hc⟩ := h
  unfold download_file_from_drive update_file at *
  rw [find?_update_list]
  cases hf : s.files.find? (fun f => f.fid == fid) with
  | none => rw [hf] at hc; simp at hc
  | some f => simp

/-- The store produced by `backup_phase` extends the original store. -/
theorem backup_phase_files_append (s : Drive) (folderId : ℕ)
    (timestamp filename : String) :
    ∃ ext, (backup_phase s folderId timestamp filename).files = s.files ++ ext := by
  unfold backup_phase
  cases find_file_in_folder s folderId filename with
  | none => exact ⟨[], by simp⟩
  | some fid =>
    dsimp only
    cases download_file_from_drive s fid with
    | none => exact ⟨[], by simp⟩
    | some c =>
      dsimp only
      by_cases hc : c = ""
      · rw [if_pos hc]
        exact ⟨[], by simp⟩
      · rw [if_neg hc]
        unfold find_or_create_folder
        cases s.files.find? (fun f => f.name == "backups" && f.parent == folderId && f.isFolder) with
        | some f =>
          dsimp only
          exact ⟨[⟨s.nextId, "graphics_data_backup_" ++ timestamp ++ ".json", f.fid, c, false⟩],
            rfl⟩
        | none =>
          dsimp only
          refine ⟨[⟨s.nextId, "backups", folderId, "", true⟩,
            ⟨s.nextId + 1, "graphics_data_backup_" ++ timestamp ++ ".json", s.nextId, c, false⟩],
            ?_⟩
          simp [upload_file_to_drive]

/-- C2 (amended): when the canonical catalog file exists and its prior
content downloads successfully and is non-empty, `save_json_to_drive`
places a timestamped copy of that prior content into the `backups`
subfolder already in the intermediate store to which the overwrite is
applied (the `backup_phase` store), so the backup exists before the new
content becomes visible under the canonical name; the final store then
carries the encoded new data under the canonical file id.  When the prior
content is empty (or fails to download), no backup is made. -/
theorem save_json_backup_before_overwrite
    (encode : Catalog → String) (s : Drive) (data : Catalog) (folderId : ℕ)
    (timestamp filename : String) (fid : ℕ) (c : String)
    (hfind : find_file_in_folder s folderId filename = some fid)
    (hdl : download_file_from_drive s fid = some c)
    (hc : c ≠ "") :
    (∃ bf ∈ (backup_phase s folderId timestamp filename).files,
        bf.fid = (find_or_create_folder s folderId "backups").2 ∧
        bf.name = "backups" ∧ bf.parent = folderId ∧ bf.isFolder = true) ∧
    (∃ b ∈ (backup_phase s folderId timestamp filename).files,
        b.parent = (find_or_create_folder s folderId "backups").2 ∧
        b.name = "graphics_data_backup_" ++ timestamp ++ ".json" ∧
        b.content = c ∧ b.isFolder = false) ∧
    download_file_from_drive
        (save_json_to_drive encode s data folderId timestamp filename) fid
      = some (encode data) := by
  have hbp : backup_phase s folderId timestamp filename =
      (upload_file_to_drive (find_or_create_folder s folderId "backups").1 c
        ("graphics_data_backup_" ++ timestamp ++ ".json")
        (find_or_create_folder s folderId "backups").2).1 := by
    unfold backup_phase
    rw [hfind]
    dsimp only
    rw [hdl]
    dsimp only
    rw [if_neg hc]
  refine ⟨?_, ?_, ?_⟩
  · rw [hbp]
    cases hfold : s.files.find?
        (fun f => f.name == "backups" && f.parent == folderId && f.isFolder) with
    | some f =>
      have hp : find_or_create_folder s folderId "backups" = (s, f.fid) := by
        unfold find_or_create_folder
        rw [hfold]
      rw [hp]
      have hprops := List.find?_some hfold
      simp only [Bool.and_eq_true, beq_iff_eq] at hprops
      refine ⟨f, ?_, rfl, hprops.1.1, hprops.1.2, hprops.2⟩
      simp [upload_file_to_drive, List.mem_of_find?_eq_some hfold]
    | none =>
      have hp : find_or_create_folder s folderId "backups" =
          (⟨s.files ++ [⟨s.nextId, "backups", folderId, "", true⟩], s.nextId + 1⟩,
            s.nextId) := by
        unfold find_or_create_folder
        rw [hfold]
      rw [hp]
      refine ⟨⟨s.nextId, "backups", folderId, "", true⟩, ?_, rfl, rfl, rfl, rfl⟩
      simp [upload_file_to_drive]
  · rw [hbp]
    cases hfold : s.files.find?
        (fun f => f.name == "backups" && f.parent == folderId && f.isFolder) with
    | some f =>
      have hp : find_or_create_folder s folderId "backups" = (s, f.fid) := by
        unfold find_or_create_folder
        rw [hfold]
      rw [hp]
      refine ⟨⟨s.nextId, "graphics_data_backup_" ++ timestamp ++ ".json", f.fid, c, false⟩,
        ?_, rfl, rfl, rfl, rfl⟩
      simp [upload_file_to_drive]
    | none =>
      have hp : find_or_create_folder s folderId "backups" =
          (⟨s.files ++ [⟨s.nextId, "backups", folderId, "", true⟩], s.nextId + 1⟩,
            s.nextId) := by
        unfold find_or_create_folder
        rw [hfold]
      rw [hp]
      refine ⟨⟨s.nextId + 1, "graphics_data_backup_" ++ timestamp ++ ".json",
        s.nextId, c, false⟩, ?_, rfl, rfl, rfl, rfl⟩
      simp [upload_file_to_drive]
  · have hsave : save_json_to_drive encode s data folderId timestamp filename =
        update_file (backup_phase s folderId timestamp filename) fid (encode data) := by
      unfold save_json_to_drive
      rw [hfind]
    rw [hsave]
    apply download_update_file
    obtain ⟨ext, hext⟩ := backup_phase_files_append s folderId timestamp filename
    have hs1 : backup_phase s folderId timestamp filename
        = ⟨s.files ++ ext, (backup_phase s folderId timestamp filename).nextId⟩ := by
      rw [← hext]
    rw [hs1]
    exact ⟨c, download_append s ext _ fid c hdl⟩

/-- A store whose canonical catalog file holds the non-empty content
`OLD`. -/
def priorDrive : Drive :=
  { files := [⟨0, "graphics_data.json", 99, "OLD", false⟩], nextId := 1 }

/-- An encoder producing the fixed document text `NEW`. -/
def newEncode : Catalog → String := fun _ => "NEW"

/-- Witness for C2 on a store whose canonical file holds `OLD`. -/
theorem save_json_backup_before_overwrite_witness :
    find_file_in_folder priorDrive 99 "graphics_data.json" = some 0 ∧
    download_file_from_drive priorDrive 0 = some "OLD" ∧
    "OLD" ≠ "" ∧
    ((∃ bf ∈ (backup_phase priorDrive 99 "T" "graphics_data.json").files,
        bf.fid = (find_or_create_folder priorDrive 99 "backups").2 ∧
        bf.name = "backups" ∧ bf.parent = 99 ∧ bf.isFolder = true) ∧
     (∃ b ∈ (backup_phase priorDrive 99 "T" "graphics_data.json").files,
        b.parent = (find_or_create_folder priorDrive 99 "backups").2 ∧
        b.name = "graphics_data_backup_" ++ "T" ++ ".json" ∧
        b.content = "OLD" ∧ b.isFolder = false) ∧
     download_file_from_drive
        (save_json_to_drive newEncode priorDrive { graphics := [] } 99 "T"
          "graphics_data.json") 0
       = some (newEncode { graphics := [] })) :=
  ⟨by decide, by decide, by decide,
   save_json_backup_before_overwrite newEncode priorDrive { graphics := [] } 99 "T"
     "graphics_data.json" 0 "OLD" (by decide) (by decide) (by decide)⟩

/-- A store whose canonical catalog file exists but holds the empty
(falsy) content. -/
def emptyPriorDrive : Drive :=
  { files := [⟨0, "graphics_data.json", 99, "", false⟩], nextId := 1 }

/-- Counterexample to C2 as stated: when the existing canonical file's
content is empty, `save_json_to_drive` overwrites it (the new content
becomes visible) yet no backup object of any name ever appears, because
line 149 treats the empty download as falsy and skips the backup upload. -/
theorem save_no_backup_on_empty_prior :
    download_file_from_drive emptyPriorDrive 0 = some "" ∧
    download_file_from_drive
        (save_json_to_drive newEncode emptyPriorDrive { graphics := [] } 99 "T"
          "graphics_data.json") 0 = some "NEW" ∧
    (save_json_to_drive newEncode emptyPriorDrive { graphics := [] } 99 "T"
        "graphics_data.json").files.all
      (fun f => !(f.name == "graphics_data_backup_" ++ "T" ++ ".json")) = true := by
  refine ⟨by decide, by decide, by decide⟩

/-- C5: a canonical catalog file whose non-empty content fails to parse as
JSON yields the empty catalog from `load_json_from_drive`; the parse
failure is swallowed, not propagated. -/
theorem load_parse_failure_yields_empty (parse : String → Except String Catalog)
    (s : Drive) (folderId : ℕ) (filename : String) (fid : ℕ) (c msg : String)
    (hfind : find_file_in_folder s folderId filename = some fid)
    (hdl : download_file_from_drive s fid = some c)
    (hc : c ≠ "")
    (hparse : parse c = Except.error msg) :
    load_json_from_drive parse s folderId filename = { graphics := [] } := by
  unfold load_json_from_drive
  rw [hfind]
  dsimp only
  rw [hdl]
  dsimp only
  rw [if_neg hc, hparse]

/-- A store whose canonical catalog file holds unparseable text. -/
def corruptDrive : Drive :=
  { files := [⟨0, "graphics_data.json", 99, "not json", false⟩], nextId := 1 }

/-- A parser that rejects every document, as `json.loads` does on the
corrupted content. -/
def failParse : String → Except String Catalog := fun _ => Except.error "Expecting value"

/-- Witness for C5 on a store holding an unparseable catalog file. -/
theorem load_parse_failure_yields_empty_witness :
    find_file_in_folder corruptDrive 99 "graphics_data.json" = some 0 ∧
    download_file_from_drive corruptDrive 0 = some "not json" ∧
    "not json" ≠ "" ∧
    failParse "not json" = Except.error "Expecting value" ∧
    load_json_from_drive failParse corruptDrive 99 "graphics_data.json" = { graphics := [] } :=
  ⟨by decide, by decide, by decide, rfl,
   load_parse_failure_yields_empty failParse corruptDrive 99 "graphics_data.json" 0
     "not json" "Expecting value" (by decide) (by decide) (by decide) rfl⟩

/-- C10: when no file with the canonical name exists in the folder,
`load_json_from_drive` returns the empty catalog without failing, so a
missing catalog is indistinguishable from an empty one at this
interface. -/
theorem load_missing_catalog_empty (parse : String → Except String Catalog)
    (s : Drive) (folderId : ℕ) (filename : String)
    (hfind : find_file_in_folder s folderId filename = none) :
    load_json_from_drive parse s folderId filename = { graphics := [] } := by
  unfold load_json_from_drive
  rw [hfind]

/-- Witness for C10 on an entirely empty store. -/
theorem load_missing_catalog_empty_witness :
    find_file_in_folder ⟨[], 0⟩ 99 "graphics_data.json" = none ∧
    load_json_from_drive failParse ⟨[], 0⟩ 99 "graphics_data.json" = { graphics := [] } :=
  ⟨rfl, load_missing_catalog_empty failParse ⟨[], 0⟩ 99 "graphics_data.json" rfl⟩

/-! ### Upload flow (`process_uploaded_image`, lines 229-261, and
`uploader_page`, lines 346-396) -/

/-- Outcome of one run of the upload flow. -/
inductive UploadResult where
  | added
  | duplicate
  | failed (msg : String)
deriving DecidableEq

/-- Lines 375-384 of `uploader_page`: the duplicate-id check and the
append.  The boolean records whether `save_json_to_drive` is invoked: a
duplicate id returns early with a warning, leaving the catalog unchanged
and unsaved. -/
def uploader_register (data : Catalog) (image_data : GraphicRecord) : Catalog × Bool :=
  if image_data.id ∈ data.graphics.map (fun g => g.id) then (data, false)
  else ({ graphics := data.graphics ++ [image_data] }, true)

/-- Shared unfolding of `uploader_register` on a duplicate id. -/
theorem uploader_register_mem (data : Catalog) (image_data : GraphicRecord)
    (h : image_data.id ∈ data.graphics.map (fun g => g.id)) :
    uploader_register data image_data = (data, false) := by
  unfold uploader_register
  rw [if_pos h]

/-- `process_uploaded_image` (lines 229-261): hash the bytes, upload the
blob under `<hash>.<extension>` into the images folder, then compute the
technical metadata.  The blob upload precedes the ratio computation, and
`Except.error` models the `ZeroDivisionError` escaping after the upload
when the height is zero.  `hashFn` abstracts `hashlib.md5`. -/
def process_uploaded_image (hashFn : String → String) (s : Drive)
    (fileBytes origName ext fmt : String) (imagesFolder : ℕ) (w h : ℕ)
    (palette : List String) (now : String) : Drive × Except String GraphicRecord :=
  let file_hash := hashFn fileBytes
  let filename := file_hash ++ "." ++ ext
  let p := upload_file_to_drive s fileBytes filename imagesFolder
  match calculate_ratio w h with
  | none => (p.1, Except.error "ZeroDivisionError")
  | some r =>
    (p.1, Except.ok
      { id := file_hash, filename := origName, drive_file_id := p.2,
        stored_filename := filename, upload_date := now,
        technical :=
          { format := fmt, dimensions := (w, h), ratio := r,
            file_size := fileBytes.length, color_palette := palette },
        business := emptyBusiness })

/-- The `Dodaj grafikę` branch of `uploader_page` (lines 346-391):
find-or-create the images folder, process the upload (which stores the
blob), attach the business block, load the catalog, run the duplicate
check, and only on a fresh id append and save. -/
def uploader_flow (hashFn : String → String) (encode : Catalog → String)
    (parse : String → Except String Catalog) (s : Drive) (mainFolder : ℕ)
    (fileBytes origName ext fmt : String) (w h : ℕ) (palette : List String)
    (now ts : String) (biz : Business) : Drive × UploadResult :=
  let pf := find_or_create_folder s mainFolder "images"
  let pr := process_uploaded_image hashFn pf.1 fileBytes origName ext fmt pf.2 w h palette now
  match pr.2 with
  | Except.error e => (pr.1, UploadResult.failed e)
  | Except.ok rec0 =>
    let image_data := { rec0 with business := biz }
    let data := load_json_from_drive parse pr.1 mainFolder "graphics_data.json"
    let reg := uploader_register data image_data
    if reg.2 then
      (save_json_to_drive encode pr.1 reg.1 mainFolder ts "graphics_data.json",
        UploadResult.added)
    else (pr.1, UploadResult.duplicate)

/-- C3: an upload whose content hash already occurs among the catalog ids
is rejected: the catalog is returned unchanged (no record appended) and
`save_json_to_drive` is not invoked (the boolean is false). -/
theorem duplicate_upload_rejected (data : Catalog) (image_data : GraphicRecord)
    (h : image_data.id ∈ data.graphics.map (fun g => g.id)) :
    (uploader_register data image_data).1 = data ∧
    (uploader_register data image_data).2 = false := by
  rw [uploader_register_mem data image_data h]
  exact ⟨rfl, rfl⟩

/-- Business metadata of the concrete witness record. -/
def bizEx : Business :=
  { numer_akcji := "A1", rynek := "medica", typ_odbiorcy := "cold",
    typ_kampanii := "sales", ctr := 0, roas := 0 }

/-- A concrete catalog record with content hash `h1`. -/
def recEx : GraphicRecord :=
  { id := "h1", filename := "a.png", drive_file_id := 1,
    stored_filename := "h1.png", upload_date := "2024-01-01T00:00:00",
    technical :=
      { format := "PNG", dimensions := (1, 1), ratio := "1:1",
        file_size := 3, color_palette := [] },
    business := bizEx }

/-- Witness for C3: re-registering `recEx` against a catalog already
holding it changes nothing and triggers no save. -/
theorem duplicate_upload_rejected_witness :
    recEx.id ∈ (Catalog.mk [recEx]).graphics.map (fun g => g.id) ∧
    ((uploader_register (Catalog.mk [recEx]) recEx).1 = Catalog.mk [recEx] ∧
     (uploader_register (Catalog.mk [recEx]) recEx).2 = false) :=
  ⟨by decide, duplicate_upload_rejected (Catalog.mk [recEx]) recEx (by decide)⟩

/-- The store produced by `find_or_create_folder` extends the original
store by folder entries carrying the requested name. -/
theorem find_or_create_folder_files (s : Drive) (parent : ℕ) (name : String) :
    ∃ ext, (find_or_create_folder s parent name).1.files = s.files ++ ext ∧
      ∀ f ∈ ext, f.name = name := by
  unfold find_or_create_folder
  cases hf : s.files.find? (fun f => f.name == name && f.parent == parent && f.isFolder) with
  | some f =>
    dsimp only
    exact ⟨[], by simp, by simp⟩
  | none =>
    dsimp only
    exact ⟨[⟨s.nextId, name, parent, "", true⟩], rfl, by simp⟩

/-- C9: the blob upload inside `process_uploaded_image` happens before the
duplicate-id check of `uploader_page`, so a rejected duplicate upload
still leaves a fresh copy of the image bytes in the store (under
`<hash>.<extension>`), while the canonical JSON document alone is left
unchanged. -/
theorem duplicate_upload_leaves_blob
    (hashFn : String → String) (encode : Catalog → String)
    (parse : String → Except String Catalog) (s : Drive) (mainFolder : ℕ)
    (fileBytes origName ext fmt : String) (w h : ℕ) (palette : List String)
    (now ts : String) (biz : Business)
    (hh : h ≠ 0)
    (hname : hashFn fileBytes ++ "." ++ ext ≠ "graphics_data.json")
    (hdup : hashFn fileBytes ∈
      (load_json_from_drive parse s mainFolder "graphics_data.json").graphics.map
        (fun g => g.id)) :
    (uploader_flow hashFn encode parse s mainFolder fileBytes origName ext fmt
        w h palette now ts biz).2 = UploadResult.duplicate ∧
    (∃ ext2, (uploader_flow hashFn encode parse s mainFolder fileBytes origName ext fmt
        w h palette now ts biz).1.files = s.files ++ ext2 ∧
      ∃ b ∈ ext2, b.content = fileBytes ∧
        b.name = hashFn fileBytes ++ "." ++ ext ∧ b.isFolder = false) ∧
    load_json_from_drive parse
        (uploader_flow hashFn encode parse s mainFolder fileBytes origName ext fmt
          w h palette now ts biz).1 mainFolder "graphics_data.json"
      = load_json_from_drive parse s mainFolder "graphics_data.json" := by
  have hratio := calculate_ratio_of_ne_zero w h hh
  obtain ⟨ext1, hext1, hnames1⟩ := find_or_create_folder_files s mainFolder "images"
  unfold uploader_flow process_uploaded_image
  rw [hratio]
  dsimp only
  set S1 := (upload_file_to_drive (find_or_create_folder s mainFolder "images").1 fileBytes
      (hashFn fileBytes ++ "." ++ ext) (find_or_create_folder s mainFolder "images").2).1
    with hS1def
  set B := (⟨(find_or_create_folder s mainFolder "images").1.nextId,
      hashFn fileBytes ++ "." ++ ext, (find_or_create_folder s mainFolder "images").2,
      fileBytes, false⟩ : DFile) with hBdef
  have hS1files : S1.files = s.files ++ (ext1 ++ [B]) := by
    rw [hS1def]
    show (find_or_create_folder s mainFolder "images").1.files ++ [B] = _
    rw [hext1, List.append_assoc]
  have hnames2 : ∀ f ∈ ext1 ++ [B], f.name ≠ "graphics_data.json" := by
    intro f hf
    rcases List.mem_append.1 hf with hf | hf
    · rw [hnames1 f hf]
      decide
    · rw [List.mem_singleton.1 hf, hBdef]
      exact hname
  have hload : load_json_from_drive parse S1 mainFolder "graphics_data.json"
      = load_json_from_drive parse s mainFolder "graphics_data.json" := by
    have heta : S1 = ⟨s.files ++ (ext1 ++ [B]), S1.nextId⟩ := by
      rw [← hS1files]
    rw [heta]
    exact load_append_of_names parse s (ext1 ++ [B]) S1.nextId mainFolder
      "graphics_data.json" hnames2
  rw [hload]
  rw [uploader_register_mem _ _ hdup]
  simp only [Bool.false_eq_true, if_false]
  refine ⟨by trivial, ⟨ext1 ++ [B], hS1files, B, ?_, rfl, rfl, rfl⟩, hload⟩
  simp

/-- Hash function of the C9 witness: every byte string hashes to `h1`. -/
def hashFnEx : String → String := fun _ => "h1"

/-- Parser of the C9 witness: every document parses to the catalog already
holding `recEx` (whose id is `h1`). -/
def parseC9 : String → Except String Catalog := fun _ => Except.ok (Catalog.mk [recEx])

/-- Witness for C9 on a store already cataloguing the hash `h1`. -/
theorem duplicate_upload_leaves_blob_witness :
    (1 : ℕ) ≠ 0 ∧
    hashFnEx "abc" ++ "." ++ "png" ≠ "graphics_data.json" ∧
    (hashFnEx "abc" ∈
      (load_json_from_drive parseC9 priorDrive 99 "graphics_data.json").graphics.map
        (fun g => g.id)) ∧
    ((uploader_flow hashFnEx newEncode parseC9 priorDrive 99 "abc" "a.png" "png" "PNG"
        1 1 [] "2024" "T" bizEx).2 = UploadResult.duplicate ∧
     (∃ ext2, (uploader_flow hashFnEx newEncode parseC9 priorDrive 99 "abc" "a.png" "png"
        "PNG" 1 1 [] "2024" "T" bizEx).1.files = priorDrive.files ++ ext2 ∧
       ∃ b ∈ ext2, b.content = "abc" ∧
         b.name = hashFnEx "abc" ++ "." ++ "png" ∧ b.isFolder = false) ∧
     load_json_from_drive parseC9
        (uploader_flow hashFnEx newEncode parseC9 priorDrive 99 "abc" "a.png" "png" "PNG"
          1 1 [] "2024" "T" bizEx).1 99 "graphics_data.json"
       = load_json_from_drive parseC9 priorDrive 99 "graphics_data.json") :=
  ⟨by decide, by decide, by decide,
   duplicate_upload_leaves_blob hashFnEx newEncode parseC9 priorDrive 99 "abc" "a.png"
     "png" "PNG" 1 1 [] "2024" "T" bizEx (by decide) (by decide) (by decide)⟩

/-! ### Report page (`report_page`, lines 398-460) -/

/-- The filter of lines 439-444: keep the records whose business fields
all lie in the selected value lists. -/
def report_filtered (graphics : List GraphicRecord) (selR selO selK : List String) :
    List GraphicRecord :=
  graphics.filter (fun g => selR.contains g.business.rynek &&
    selO.contains g.business.typ_odbiorcy && selK.contains g.business.typ_kampanii)

/-- Python `list.sort(key=..., reverse=...)` is a stable sort; insertion
sort with the non-strict key comparison has exactly that behaviour, and
`reverse=True` is the stable sort along the reversed comparison. -/
def pysortBy (le : GraphicRecord → GraphicRecord → Bool) (desc : Bool)
    (l : List GraphicRecord) : List GraphicRecord :=
  if desc then l.insertionSort (fun a b => le b a = true)
  else l.insertionSort (fun a b => le a b = true)

/-- Boolean less-or-equal on rationals (Python float `<=`). -/
def ratLe (a b : ℚ) : Bool := decide (a ≤ b)

/-- The sort dispatch of lines 446-454, keyed like the source: `ctr` and
`roas` numerically, `upload_date` and `numer_akcji` as strings, and
`filename` otherwise; `desc` is `Malejąco`. -/
def report_sorted (l : List GraphicRecord) (sort_by : String) (desc : Bool) :
    List GraphicRecord :=
  if sort_by = "ctr" then pysortBy (fun a b => ratLe a.business.ctr b.business.ctr) desc l
  else if sort_by = "roas" then
    pysortBy (fun a b => ratLe a.business.roas b.business.roas) desc l
  else if sort_by = "upload_date" then
    pysortBy (fun a b => strLe a.upload_date b.upload_date) desc l
  else if sort_by = "numer_akcji" then
    pysortBy (fun a b => strLe a.business.numer_akcji b.business.numer_akcji) desc l
  else pysortBy (fun a b => strLe a.filename b.filename) desc l

/-- What the report page renders: the sorted filtered records, the match
count of line 456, and the averages of lines 459-460 when computed. -/
structure ReportView where
  shown : List GraphicRecord
  count : ℕ
  averages : Option (ℚ × ℚ)

/-- `report_page` data path (lines 411-466): an empty catalog returns
early (`none`); otherwise the records are filtered and sorted, the count
is reported, and the CTR/ROAS averages are computed, dividing by the
filtered count, only when the filtered list is non-empty. -/
def report_page_view (graphics : List GraphicRecord) (selR selO selK : List String)
    (sort_by : String) (desc : Bool) : Option ReportView :=
  if graphics.isEmpty then none
  else
    let fs := report_sorted (report_filtered graphics selR selO selK) sort_by desc
    some { shown := fs, count := fs.length,
           averages :=
             if fs.isEmpty then none
             else some ((fs.map (fun g => g.business.ctr)).sum / (fs.length : ℚ),
                        (fs.map (fun g => g.business.roas)).sum / (fs.length : ℚ)) }

/-- `charListLe` is total. -/
theorem charListLe_total : ∀ as bs, charListLe as bs = true ∨ charListLe bs as = true := by
  intro as
  induction as with
  | nil =>
    intro bs
    left
    rfl
  | cons a as ih =>
    intro bs
    cases bs with
    | nil =>
      right
      rfl
    | cons b bs =>
      by_cases hab : a < b
      · left
        simp [charListLe, hab]
      · by_cases hba : b < a
        · right
          simp [charListLe, hba]
        · rcases ih bs with h | h
          · left
            simp [charListLe, hab, hba, h]
          · right
            simp [charListLe, hab, hba, h]

/-- `charListLe` is transitive. -/
theorem charListLe_trans : ∀ as bs cs, charListLe as bs = true →
    charListLe bs cs = true → charListLe as cs = true := by
  intro as
  induction as with
  | nil =>
    intro bs cs h1 h2
    rfl
  | cons a as ih =>
    intro bs cs h1 h2
    cases bs with
    | nil => simp [charListLe] at h1
    | cons b bs =>
      cases cs with
      | nil => simp [charListLe] at h2
      | cons c cs =>
        by_cases hab : a < b
        · by_cases hbc : b < c
          · simp [charListLe, lt_trans hab hbc]
          · by_cases hcb : c < b
            · simp [charListLe, hbc, hcb] at h2
            · have hbceq : b = c := le_antisymm (not_lt.1 hcb) (not_lt.1 hbc)
              subst hbceq
              simp [charListLe, hab]
        · by_cases hba : b < a
          · simp [charListLe, hab, hba] at h1
          · have habeq : a = b := le_antisymm (not_lt.1 hba) (not_lt.1 hab)
            subst habeq
            have h1' : charListLe as bs = true := by
              simpa [charListLe, lt_irrefl] using h1
            by_cases hac : a < c
            · simp [charListLe, hac]
            · by_cases hca : c < a
              · simp [charListLe, hac, hca] at h2
              · have h2' : charListLe bs cs = true := by
                  simpa [charListLe, hac, hca] using h2
                simp [charListLe, hac, hca, ih bs cs h1' h2']

/-- `charListLe` is antisymmetric. -/
theorem charListLe_antisymm : ∀ as bs, charListLe as bs = true →
    charListLe bs as = true → as = bs := by
  intro as
  induction as with
  | nil =>
    intro bs h1 h2
    cases bs with
    | nil => rfl
    | cons b bs => simp [charListLe] at h2
  | cons a as ih =>
    intro bs h1 h2
    cases bs with
    | nil => simp [charListLe] at h1
    | cons b bs =>
      by_cases hab : a < b
      · simp [charListLe, hab, lt_asymm hab] at h2
      · by_cases hba : b < a
        · simp [charListLe, hab, hba] at h1
        · have habeq : a = b := le_antisymm (not_lt.1 hba) (not_lt.1 hab)
          subst habeq
          have h1' : charListLe as bs = true := by
            simpa [charListLe, lt_irrefl] using h1
          have h2' : charListLe bs as = true := by
            simpa [charListLe, lt_irrefl] using h2
          rw [ih bs h1' h2']

/-- C6 (amended): when the filters keep every record and the upload dates
in the catalog are pairwise distinct, sorting by upload date descending
equals sorting ascending and then reversing.  (With tied upload dates the
two sides differ, because Python's sort is stable in both directions.) -/
theorem report_desc_eq_reverse_asc
    (graphics : List GraphicRecord) (selR selO selK : List String)
    (hfull : ∀ g ∈ graphics, (selR.contains g.business.rynek &&
        selO.contains g.business.typ_odbiorcy &&
        selK.contains g.business.typ_kampanii) = true)
    (hdist : graphics.Pairwise (fun a b => a.upload_date ≠ b.upload_date)) :
    report_filtered graphics selR selO selK = graphics ∧
    report_sorted graphics "upload_date" true
      = (report_sorted graphics "upload_date" false).reverse := by
  have hfilter : report_filtered graphics selR selO selK = graphics :=
    List.filter_eq_self.mpr hfull
  refine ⟨hfilter, ?_⟩
  have hdesc : report_sorted graphics "upload_date" true
      = graphics.insertionSort (fun a b => strLe b.upload_date a.upload_date = true) := by
    unfold report_sorted pysortBy
    rw [if_neg (by decide), if_neg (by decide), if_pos rfl, if_pos rfl]
  have hasc : report_sorted graphics "upload_date" false
      = graphics.insertionSort (fun a b => strLe a.upload_date b.upload_date = true) := by
    unfold report_sorted pysortBy
    rw [if_neg (by decide), if_neg (by decide), if_pos rfl, if_neg (by decide)]
  rw [hdesc, hasc]
  haveI i1 : IsTotal GraphicRecord (fun a b => strLe b.upload_date a.upload_date = true) :=
    ⟨fun a b => charListLe_total _ _⟩
  haveI i2 : IsTrans GraphicRecord (fun a b => strLe b.upload_date a.upload_date = true) :=
    ⟨fun a b c h1 h2 => charListLe_trans _ _ _ h2 h1⟩
  haveI i3 : IsTotal GraphicRecord (fun a b => strLe a.upload_date b.upload_date = true) :=
    ⟨fun a b => charListLe_total _ _⟩
  haveI i4 : IsTrans GraphicRecord (fun a b => strLe a.upload_date b.upload_date = true) :=
    ⟨fun a b c h1 h2 => charListLe_trans _ _ _ h1 h2⟩
  have hpermL : (graphics.insertionSort
      (fun a b => strLe b.upload_date a.upload_date = true)).Perm graphics :=
    List.perm_insertionSort _ graphics
  have hpermR : ((graphics.insertionSort
      (fun a b => strLe a.upload_date b.upload_date = true)).reverse).Perm graphics :=
    (List.reverse_perm _).trans (List.perm_insertionSort _ graphics)
  have hsortedL : (graphics.insertionSort
      (fun a b => strLe b.upload_date a.upload_date = true)).Sorted
        (fun a b => strLe b.upload_date a.upload_date = true) :=
    List.sorted_insertionSort _ graphics
  have hsortedR' : (graphics.insertionSort
      (fun a b => strLe a.upload_date b.upload_date = true)).Sorted
        (fun a b => strLe a.upload_date b.upload_date = true) :=
    List.sorted_insertionSort _ graphics
  have hsortedR : ((graphics.insertionSort
      (fun a b => strLe a.upload_date b.upload_date = true)).reverse).Pairwise
        (fun a b => strLe b.upload_date a.upload_date = true) :=
    List.pairwise_reverse.mpr hsortedR'
  have hsym : ∀ {x y : GraphicRecord},
      x.upload_date ≠ y.upload_date → y.upload_date ≠ x.upload_date :=
    fun h => h.symm
  have hdistL := (hpermL.pairwise_iff hsym).mpr hdist
  have hdistR := (hpermR.pairwise_iff hsym).mpr hdist
  have hstrictL := hsortedL.and hdistL
  have hstrictR := hsortedR.and hdistR
  haveI : IsAntisymm GraphicRecord
      (fun a b => (strLe b.upload_date a.upload_date = true) ∧
        a.upload_date ≠ b.upload_date) :=
    ⟨fun a b h1 h2 =>
      absurd (String.toList_inj.mp (charListLe_antisymm _ _ h2.1 h1.1)) h1.2⟩
  exact List.eq_of_perm_of_sorted (hpermL.trans hpermR.symm) hstrictL hstrictR

/-- A second record with a distinct upload date, for the C6 witness. -/
def recB : GraphicRecord :=
  { recEx with id := "h2", filename := "b.png", upload_date := "2024-01-02T00:00:00" }

/-- Witness for C6 on a two-record catalog with distinct upload dates and
filters covering all present values. -/
theorem report_desc_eq_reverse_asc_witness :
    (∀ g ∈ [recEx, recB], ((["medica"] : List String).contains g.business.rynek &&
        (["cold"] : List String).contains g.business.typ_odbiorcy &&
        (["sales"] : List String).contains g.business.typ_kampanii) = true) ∧
    ([recEx, recB] : List GraphicRecord).Pairwise
      (fun a b => a.upload_date ≠ b.upload_date) ∧
    (report_filtered [recEx, recB] ["medica"] ["cold"] ["sales"] = [recEx, recB] ∧
     report_sorted [recEx, recB] "upload_date" true
       = (report_sorted [recEx, recB] "upload_date" false).reverse) :=
  ⟨by decide, by decide,
   report_desc_eq_reverse_asc [recEx, recB] ["medica"] ["cold"] ["sales"]
     (by decide) (by decide)⟩

/-- A record sharing `recEx`'s upload date but differing elsewhere. -/
def recDup : GraphicRecord := { recEx with id := "h2", filename := "b.png" }

/-- Counterexample to C6 as stated: with two records tied on upload date
(filters kept full), the stable descending sort keeps the original order
while ascending-then-reverse flips it, so the two sides differ. -/
theorem report_desc_counterexample :
    ¬ (report_sorted (report_filtered [recEx, recDup] ["medica"] ["cold"] ["sales"])
          "upload_date" true
        = (report_sorted (report_filtered [recEx, recDup] ["medica"] ["cold"] ["sales"])
            "upload_date" false).reverse) := by
  decide

/-- C7: an empty catalog makes `report_page_view` return early with no
metrics at all (zero records shown, no division executed); and whenever
averages are produced, the filtered count they divide by is positive, so
no division by zero can occur in the report view. -/
theorem report_empty_no_division (selR selO selK : List String)
    (sort_by : String) (desc : Bool) :
    report_page_view [] selR selO selK sort_by desc = none ∧
    ∀ (graphics : List GraphicRecord) (v : ReportView) (p : ℚ × ℚ),
      report_page_view graphics selR selO selK sort_by desc = some v →
      v.averages = some p →
      0 < v.count ∧
        p.1 = (v.shown.map (fun g => g.business.ctr)).sum / (v.count : ℚ) ∧
        p.2 = (v.shown.map (fun g => g.business.roas)).sum / (v.count : ℚ) := by
  constructor
  · rfl
  · intro graphics v p hv hav
    unfold report_page_view at hv
    by_cases hg : graphics.isEmpty = true
    · rw [if_pos hg] at hv
      exact absurd hv (by simp)
    · rw [if_neg hg] at hv
      dsimp only at hv
      injection hv with hv
      subst hv
      dsimp only at hav ⊢
      by_cases hfs : (report_sorted (report_filtered graphics selR selO selK)
          sort_by desc).isEmpty = true
      · rw [if_pos hfs] at hav
        exact absurd hav (by simp)
      · rw [if_neg hfs] at hav
        injection hav with hav
        subst hav
        refine ⟨?_, rfl, rfl⟩
        have hne : report_sorted (report_filtered graphics selR selO selK) sort_by desc ≠ [] := by
          intro hcon
          rw [hcon] at hfs
          exact hfs rfl
        exact List.length_pos.mpr hne

/-- The sorted filtered single-record view of the C7 witness. -/
def fsC7 : List GraphicRecord :=
  report_sorted (report_filtered [recEx] ["medica"] ["cold"] ["sales"]) "upload_date" true

/-- The averages pair the report computes for `fsC7`. -/
def pC7 : ℚ × ℚ :=
  ((fsC7.map (fun g => g.business.ctr)).sum / (fsC7.length : ℚ),
   (fsC7.map (fun g => g.business.roas)).sum / (fsC7.length : ℚ))

/-- The rendered view of the C7 witness. -/
def vC7 : ReportView := { shown := fsC7, count := fsC7.length, averages := some pC7 }

/-- Witness for C7: the empty catalog yields no view, and on a one-record
catalog the averages divide by the positive count 1. -/
theorem report_empty_no_division_witness :
    report_page_view [] ["medica"] ["cold"] ["sales"] "upload_date" true = none ∧
    (0 < vC7.count ∧
      pC7.1 = (vC7.shown.map (fun g => g.business.ctr)).sum / (vC7.count : ℚ) ∧
      pC7.2 = (vC7.shown.map (fun g => g.business.roas)).sum / (vC7.count : ℚ)) :=
  ⟨(report_empty_no_division ["medica"] ["cold"] ["sales"] "upload_date" true).1,
   (report_empty_no_division ["medica"] ["cold"] ["sales"] "upload_date" true).2
     [recEx] vC7 pC7 rfl rfl⟩
